import Mathlib

/-!
Verification of the gsrf symbol codec (github.com/kis9a/gsrf).

Go strings are modelled as lists of characters (`GoStr`); every index
computed by the Go code (`strings.Index`, `strings.LastIndex`, slicing)
falls on a character boundary of the strings involved, so the char-level
model is faithful to the byte-level Go code.  The helpers below mirror the
corresponding functions of Go's `strings`/`strconv` packages at that
granularity.
-/

set_option maxHeartbeats 2000000
set_option maxRecDepth 10000

namespace Gsrf

/-- Go strings, modelled as lists of characters. -/
abbrev GoStr := List Char

/-- Coerce a Lean string literal into the model. -/
def gs (s : String) : GoStr := s.toList

/-- Go `len(s)`. -/
def GoStr.len (s : GoStr) : Nat := List.length s

/-- Go `s[:i]`. -/
def strTake (i : Nat) (s : GoStr) : GoStr := List.take i s

/-- Go `s[i:]`. -/
def strDrop (i : Nat) (s : GoStr) : GoStr := List.drop i s

/-- Go `s[a:b]`. -/
def strSlice (s : GoStr) (a b : Nat) : GoStr := List.take (b - a) (List.drop a s)

/-- Go `strings.HasPrefix`. -/
def startsWith (pre s : GoStr) : Bool := List.isPrefixOf pre s

/-- Go `strings.HasSuffix`. -/
def endsWith (suf s : GoStr) : Bool := List.isSuffixOf suf s

/-- Positions of `s` (0 .. len) at which the pattern `pat` occurs. -/
def subOccurrences (pat s : GoStr) : List Nat :=
  List.filter (fun i => startsWith pat (strDrop i s)) (List.range (GoStr.len s + 1))

/-- Go `strings.Index` (first occurrence), `none` for Go's `-1`. -/
def indexOfSub (pat s : GoStr) : Option Nat := List.head? (subOccurrences pat s)

/-- Go `strings.LastIndex` (last occurrence), `none` for Go's `-1`. -/
def lastIndexOfSub (pat s : GoStr) : Option Nat := List.getLast? (subOccurrences pat s)

/-- Go `strings.Index` with a single-character pattern. -/
def indexOfChar (c : Char) (s : GoStr) : Option Nat := indexOfSub [c] s

/-- Go `strings.LastIndex` with a single-character pattern. -/
def lastIndexOfChar (c : Char) (s : GoStr) : Option Nat := lastIndexOfSub [c] s

/-- Go `strings.Contains`. -/
def containsSub (pat s : GoStr) : Bool := Option.isSome (indexOfSub pat s)

/-- Go `strings.ContainsRune` / membership of one character. -/
def containsChar (c : Char) (s : GoStr) : Bool := List.contains s c

/-- Go `strings.Split` with a single-character separator. -/
def splitOnChar (c : Char) : GoStr → List GoStr
  | [] => [[]]
  | x :: xs =>
    match splitOnChar c xs, decide (x = c) with
    | r, true => [] :: r
    | [], false => [[x]]
    | h :: t, false => (x :: h) :: t

/-- Go `strings.SplitN(s, sep, 2)` for a one-character separator: `some`
holds the two pieces when the separator occurs (`len(kv) == 2` in Go). -/
def splitN2 (c : Char) (s : GoStr) : Option (GoStr × GoStr) :=
  match indexOfChar c s with
  | some i => some (strTake i s, strDrop (i + 1) s)
  | none => none

/-- The white-space characters relevant to Go `strings.TrimSpace` here. -/
def isSpaceChar (c : Char) : Bool := c = ' ' ∨ c = '\t' ∨ c = '\n' ∨ c = '\r'

/-- Go `strings.TrimSpace`. -/
def trimSpace (s : GoStr) : GoStr :=
  List.reverse (List.dropWhile isSpaceChar (List.reverse (List.dropWhile isSpaceChar s)))

/-- Is `c` an ASCII decimal digit. -/
def isDigitChar (c : Char) : Bool := '0' ≤ c ∧ c ≤ '9'

/-- Numeric value of a digit character. -/
def digitVal (c : Char) : Nat := c.toNat - '0'.toNat

/-- Parse an unsigned decimal numeral: all characters must be digits and
there must be at least one. -/
def parseNat (s : GoStr) : Option Nat :=
  if s ≠ [] ∧ List.all s isDigitChar then
    some (List.foldl (fun acc c => acc * 10 + digitVal c) 0 s)
  else none

/-- Go `strconv.Atoi` (overflow ignored: the inputs relevant here are small). -/
def goAtoi (s : GoStr) : Option Int :=
  match s with
  | '+' :: rest => Option.map Int.ofNat (parseNat rest)
  | '-' :: rest => Option.map (fun n => -(n : Int)) (parseNat rest)
  | _ => Option.map Int.ofNat (parseNat s)

/-- Decimal digits of a natural number (fuel-based so it reduces in the
kernel); `fuel` must exceed the number of digits. -/
def natDigitsAux (fuel n : Nat) (acc : GoStr) : GoStr :=
  match fuel with
  | 0 => acc
  | fuel + 1 =>
    let d := Char.ofNat ('0'.toNat + n % 10)
    if n < 10 then d :: acc else natDigitsAux fuel (n / 10) (d :: acc)

/-- Go `strconv.Itoa` restricted to naturals (the code only prints indices
that are strictly positive). -/
def natToStr (n : Nat) : GoStr := natDigitsAux (n + 1) n []

/-- Go `strings.Join(parts, sep)`. -/
def joinWith (sep : GoStr) : List GoStr → GoStr
  | [] => []
  | [x] => x
  | x :: xs => x ++ sep ++ joinWith sep xs

/-- Running count of `'['` minus `']'` over a string (the bracket-depth
counter the parser runs over prefixes). -/
def bracketCount (s : GoStr) : Int :=
  List.foldl
    (fun n c => if c = '[' then n + 1 else if c = ']' then n - 1 else n) 0 s

/-!
The Symbol data model, transcribed from `symbol.go`.  Go's `*Receiver` is
`Option Receiver`; `AnonIndex int` is `Int` (the parser can store negative
values, see below).  The `Custom map[string]string` is modelled as an
association list in insertion order with no duplicate keys (`customUpsert`
below); an absent map and an empty map are identified, which the format
specification declares equivalent everywhere metadata presence is tested.
-/

/-- `Receiver` of `symbol.go`. -/
structure Receiver where
  typeName : GoStr
  isPointer : Bool
  typeArgs : List GoStr
deriving DecidableEq, Repr

/-- `TypeParam` of `symbol.go`. -/
structure TypeParam where
  name : GoStr
  constraint : GoStr
deriving DecidableEq, Repr

/-- `Metadata` of `symbol.go`. -/
structure Metadata where
  via : GoStr := []
  aliasSrc : GoStr := []
  position : GoStr := []
  custom : List (GoStr × GoStr) := []
deriving DecidableEq, Repr

/-- The zero `Metadata{}` value. -/
def emptyMetadata : Metadata := {}

/-- `Symbol` of `symbol.go`. -/
structure Symbol where
  packagePath : GoStr := []
  name : GoStr := []
  receiver : Option Receiver := none
  isInit : Bool := false
  isAnonymous : Bool := false
  anonParent : GoStr := []
  anonIndex : Int := 0
  typeParams : List TypeParam := []
  typeArgs : List GoStr := []
  context : GoStr := []
  metadata : Metadata := {}
deriving DecidableEq, Repr

/-- Go map assignment `m[k] = v` on the association-list model: overwrite
the entry when the key is present, otherwise append. -/
def customUpsert (l : List (GoStr × GoStr)) (k v : GoStr) : List (GoStr × GoStr) :=
  if List.any l (fun kv => kv.1 = k) then
    List.map (fun kv => if kv.1 = k then (k, v) else kv) l
  else l ++ [(k, v)]

/-!
The canonical parser, transcribed phase by phase from `parse.go`.
-/

/-- The metadata-interior loop of `Parse` (`parse.go` lines 38-56): split on
commas, split each part on the first colon, trim, route the recognized keys
`via`/`alias`/`pos` to their fields and everything else to the custom map. -/
def parseMetaInner (metaStr : GoStr) : Metadata :=
  List.foldl
    (fun m part =>
      match splitN2 ':' part with
      | some kv =>
        let key := trimSpace kv.1
        let value := trimSpace kv.2
        if key = gs "via" then { m with via := value }
        else if key = gs "alias" then { m with aliasSrc := value }
        else if key = gs "pos" then { m with position := value }
        else { m with custom := customUpsert m.custom key value }
      | none => m)
    {} (splitOnChar ',' metaStr)

/-- Phase 1 of `Parse` (`parse.go` lines 16-58): if the last `'\x7b'` sits at a
positive index, the string ends in `'\x7d'`, and the bracket counter over the
prefix is zero, strip the block and parse its interior. -/
def extractMeta (input : GoStr) : GoStr × Metadata :=
  match lastIndexOfChar '{' input with
  | some idx =>
    if idx > 0 ∧ endsWith ['}'] input then
      let metaStr := strSlice input (idx + 1) (GoStr.len input - 1)
      if bracketCount (strTake idx input) = 0 then
        (strTake idx input, parseMetaInner metaStr)
      else (input, {})
    else (input, {})
  | none => (input, {})

/-- Phase 2 of `Parse` (`parse.go` lines 60-80): strip an unbracketed
`@context` suffix; an empty context is a hard error. -/
def extractContext (input : GoStr) : Except GoStr (GoStr × GoStr) :=
  match lastIndexOfChar '@' input with
  | some idx =>
    if idx > 0 then
      if bracketCount (strTake idx input) = 0 then
        let ctx := strDrop (idx + 1) input
        if ctx = [] then .error (gs "invalid GSRF symbol: empty context after @")
        else .ok (strTake idx input, ctx)
      else .ok (input, [])
    else .ok (input, [])
  | none => .ok (input, [])

/-- The bracket-less package split of `Parse` (`parse.go` lines 122-130). -/
def simpleSplit (input : GoStr) : Except GoStr (GoStr × GoStr) :=
  match lastIndexOfChar '.' input with
  | some lastDot =>
    if lastDot = 0 ∨ lastDot = GoStr.len input - 1 then
      .error (gs "invalid GSRF symbol: no package separator found")
    else .ok (strTake lastDot input, strDrop (lastDot + 1) input)
  | none => .error (gs "invalid GSRF symbol: no package separator found")

/-- Phase 3 of `Parse` (`parse.go` lines 82-131): split `packagePath` from
the symbol part, preferring the method form around the last `").'`. -/
def splitPkgSymbol (input : GoStr) : Except GoStr (GoStr × GoStr) :=
  if containsSub (gs ".(") input ∧ ¬ containsSub (gs ").") input then
    .error (gs "incomplete method receiver")
  else if containsSub (gs ").") input then
    match lastIndexOfSub (gs ").") input with
    | none => .error (gs "invalid method format")
    | some methodSep =>
      match lastIndexOfSub (gs ".(") (strTake methodSep input) with
      | some d => .ok (strTake d input, strDrop (d + 1) input)
      | none =>
        match indexOfChar '(' input with
        | some openParen =>
          if openParen > 0 then
            match lastIndexOfChar '.' (strTake openParen input) with
            | some d => .ok (strTake d input, strDrop (d + 1) input)
            | none => .error (gs "invalid GSRF symbol: no package separator found")
          else .error (gs "invalid GSRF symbol: no package separator found")
        | none => .error (gs "invalid GSRF symbol: no package separator found")
  else
    match indexOfChar '[' input with
    | some idx =>
      if idx > 0 then
        match lastIndexOfChar '.' (strTake idx input) with
        | some lastDot => .ok (strTake lastDot input, strDrop (lastDot + 1) input)
        | none => .error (gs "invalid GSRF symbol: no package separator found")
      else simpleSplit input
    | none => simpleSplit input

/-- `parseTypeArgs` of `parse.go`: split on commas at zero `[]`- and
`()`-depth, trimming each piece and dropping empty pieces. -/
def parseTypeArgs (s : GoStr) : List GoStr :=
  if s = [] then [] else
  let st := List.foldl
    (fun (st : List GoStr × GoStr × Int × Int) r =>
      let (args, current, depth, parenDepth) := st
      if r = '[' then (args, current ++ [r], depth + 1, parenDepth)
      else if r = ']' then (args, current ++ [r], depth - 1, parenDepth)
      else if r = '(' then (args, current ++ [r], depth, parenDepth + 1)
      else if r = ')' then (args, current ++ [r], depth, parenDepth - 1)
      else if r = ',' then
        if depth = 0 ∧ parenDepth = 0 then
          (if trimSpace current ≠ [] then args ++ [trimSpace current] else args,
           [], depth, parenDepth)
        else (args, current ++ [r], depth, parenDepth)
      else (args, current ++ [r], depth, parenDepth))
    ([], [], 0, 0) s
  if st.2.1 ≠ [] ∧ trimSpace st.2.1 ≠ [] then st.1 ++ [trimSpace st.2.1] else st.1


/-- Phase 5 of `Parse` (`parse.go` lines 208-222): post-hoc extraction of a
bracketed type-argument list still sitting in `name`; an unclosed bracket at
a positive index is a hard error. -/
def postNameBrackets (sym : Symbol) : Except GoStr Symbol :=
  if containsChar '[' sym.name then
    match indexOfChar '[' sym.name with
    | some idx =>
      if idx > 0 then
        match lastIndexOfChar ']' sym.name with
        | some e =>
          if e > idx then
            .ok { sym with typeArgs := parseTypeArgs (strSlice sym.name (idx + 1) e),
                           name := strTake idx sym.name }
          else .error (gs "invalid GSRF symbol: unclosed type parameter bracket")
        | none => .error (gs "invalid GSRF symbol: unclosed type parameter bracket")
      else .ok sym
    | none => .ok sym
  else .ok sym

/-- Phase 4 of `Parse` (`parse.go` lines 144-206): classify the symbol part
as `init`, anonymous (the separator-plus-`lit` marker), method, or bare
name.  The `init` branch returns without the phase-5 post-processing, as in
the Go code. -/
def classifySymbolPart (packagePath symbolPart context : GoStr) (metadata : Metadata) :
    Except GoStr Symbol :=
  let sym : Symbol := { packagePath := packagePath, context := context, metadata := metadata }
  if symbolPart = gs "init" then
    .ok { sym with isInit := true, name := gs "init" }
  else
    let step1 : Except GoStr Symbol :=
      if containsSub (gs "·lit") symbolPart then
        let litIndex := Option.getD (indexOfSub (gs "·lit") symbolPart) 0
        let name := strTake litIndex symbolPart
        let indexStr := strDrop (litIndex + GoStr.len (gs "·lit")) symbolPart
        let anonIndex : Int :=
          if indexStr ≠ [] then
            match goAtoi indexStr with
            | some i => i
            | none => 0
          else 0
        .ok { sym with name := name, isAnonymous := true,
                       anonParent := packagePath ++ gs "." ++ name,
                       anonIndex := anonIndex }
      else if startsWith ['('] symbolPart then
        match indexOfChar ')' symbolPart with
        | none => .error (gs "invalid method receiver")
        | some recvEnd =>
          if ¬ containsSub (gs ").") symbolPart then
            .error (gs "invalid method receiver")
          else
            let recvStr0 := strSlice symbolPart 1 recvEnd
            let isPtr := startsWith ['*'] recvStr0
            let recvStr := if isPtr then strDrop 1 recvStr0 else recvStr0
            let tn : GoStr × List GoStr :=
              match indexOfChar '[' recvStr with
              | some idx =>
                if idx > 0 then
                  (strTake idx recvStr,
                   match lastIndexOfChar ']' recvStr with
                   | some e => if e > idx then parseTypeArgs (strSlice recvStr (idx + 1) e) else []
                   | none => [])
                else (recvStr, [])
              | none => (recvStr, [])
            if recvEnd + 2 < GoStr.len symbolPart then
              .ok { sym with receiver := some ⟨tn.1, isPtr, tn.2⟩,
                             name := strDrop (recvEnd + 2) symbolPart }
            else .error (gs "invalid GSRF symbol: receiver without method name")
      else
        .ok { sym with name := symbolPart }
    step1.bind postNameBrackets

/-- `Parse` of `parse.go`: the five phases chained; an error never carries a
symbol (`Except` replaces Go's `(*Symbol, error)` pair, whose error returns
are always `nil, err`). -/
def Parse (input : GoStr) : Except GoStr Symbol :=
  if input = [] then .error (gs "invalid GSRF symbol: empty string")
  else
    let pm := extractMeta input
    match extractContext pm.1 with
    | .error e => .error e
    | .ok (input2, context) =>
      match splitPkgSymbol input2 with
      | .error e => .error e
      | .ok (packagePath, symbolPart) =>
        if packagePath = [] ∨ symbolPart = [] then
          .error (gs "invalid GSRF symbol: empty package or symbol part")
        else classifySymbolPart packagePath symbolPart context pm.2

/-- `hasMetadata` of `symbol.go`. -/
def hasMetadata (m : Metadata) (custom : List (GoStr × GoStr)) : Bool :=
  m.via ≠ [] ∨ m.aliasSrc ≠ [] ∨ m.position ≠ [] ∨ custom.length > 0

/-- The metadata fragments of `Format` (`symbol.go` lines 116-129):
recognized fields in fixed order, then the custom entries in the order the
Go `range` loop happens to yield (`customOrder`). -/
def metaParts (m : Metadata) (customOrder : List (GoStr × GoStr)) : List GoStr :=
  (if m.via ≠ [] then [gs "via:" ++ m.via] else [])
  ++ (if m.aliasSrc ≠ [] then [gs "alias:" ++ m.aliasSrc] else [])
  ++ (if m.position ≠ [] then [gs "pos:" ++ m.position] else [])
  ++ List.map (fun kv => kv.1 ++ [':'] ++ kv.2) customOrder

/-- `Format` of `symbol.go`, with the iteration order of the custom map made
an explicit parameter `customOrder` (Go's `for k, v := range s.Metadata.Custom`
yields the entries in an unspecified order; any permutation of the map
content is an admissible order).  Note the anonymous separator is written
with the literal bytes of the source file: `"Â·lit"` (U+00C2 then U+00B7),
while the parser searches for `"·lit"` (U+00B7 alone). -/
def FormatWith (s : Symbol) (customOrder : List (GoStr × GoStr)) : GoStr :=
  s.packagePath ++ ['.']
  ++ (match s.receiver with
      | some r =>
        ['('] ++ (if r.isPointer then ['*'] else []) ++ r.typeName
        ++ (if r.typeArgs.length > 0 then ['['] ++ joinWith (gs ", ") r.typeArgs ++ [']'] else [])
        ++ gs ")."
      | none => [])
  ++ (if s.isAnonymous then
        s.name ++ gs "Â·lit" ++ (if s.anonIndex > 0 then natToStr s.anonIndex.toNat else [])
      else s.name)
  ++ (if s.typeArgs.length > 0 then ['['] ++ joinWith (gs ", ") s.typeArgs ++ [']']
      else if s.typeParams.length > 0 then
        ['['] ++ joinWith (gs ", ")
          (List.map (fun tp =>
            tp.name ++ (if tp.constraint ≠ [] ∧ tp.constraint ≠ gs "any"
                        then [' '] ++ tp.constraint else [])) s.typeParams)
        ++ [']']
      else [])
  ++ (if s.context ≠ [] then ['@'] ++ s.context else [])
  ++ (if hasMetadata s.metadata customOrder then
        let parts := metaParts s.metadata customOrder
        if parts.length > 0 then ['{'] ++ joinWith [','] parts ++ ['}'] else []
      else [])

/-- `Format` of `symbol.go` under the canonical (insertion-order) iteration
of the custom map. -/
def Format (s : Symbol) : GoStr := FormatWith s s.metadata.custom


/-!
The SSA adapter (`adapters/ssa.go`).  The anchored regular expressions are
implemented directly with Go's leftmost-first (greedy, backtracking)
semantics: a leading greedy `(.+)` picks the LAST position of the following
literal whose remainder still matches the rest of the pattern.
-/

/-- Does `r` match `[^:]+:\d+:\d+$` (the part of `ssaLocationPattern` after
the `@`): a nonempty colon-free segment, a colon, nonempty digits, a colon,
nonempty digits. -/
def locSuffixOK (r : GoStr) : Bool :=
  match indexOfChar ':' r with
  | some j =>
    j > 0 ∧
    (let rest := strDrop (j + 1) r
     let c := List.takeWhile isDigitChar rest
     let rest2 := strDrop (GoStr.len c) rest
     c ≠ [] ∧ startsWith [':'] rest2 ∧
     (let d := strDrop 1 rest2
      d ≠ [] ∧ List.all d isDigitChar))
  | none => false

/-- `ssaLocationPattern = ^(.+)@([^:]+):(\d+):(\d+)$`: the greedy `(.+)`
selects the last `@` (at a positive index) whose suffix matches; the Go code
reassembles the three groups with colons, which is exactly that suffix.
Returns `(prefix, location)`, or `(s, [])` when the pattern does not match. -/
def ssaStripLoc (s : GoStr) : GoStr × GoStr :=
  let cand := List.filter
    (fun i => decide (0 < i) ∧ startsWith ['@'] (strDrop i s) ∧ locSuffixOK (strDrop (i + 1) s))
    (List.range (GoStr.len s))
  match List.getLast? cand with
  | some i => (strTake i s, strDrop (i + 1) s)
  | none => (s, [])

/-- `ssaInitPattern = ^(.+)\.init#(\d+)$`: group 1 is the longest prefix
followed by `".init#"` and then one or more digits running to the end. -/
def ssaInitMatch (s : GoStr) : Option GoStr :=
  let cand := List.filter
    (fun i => decide (0 < i) ∧ startsWith (gs ".init#") (strDrop i s) ∧
      (let d := strDrop (i + 6) s
       decide (d ≠ []) ∧ List.all d isDigitChar))
    (List.range (GoStr.len s))
  Option.map (fun i => strTake i s) (List.getLast? cand)

/-- Matcher for the tail `(\*?)([^)]+)\)\.([^.]+)$` of `ssaMethodPattern`
after a fixed `".("`: `[^)]+` is cut at the first `')'`, which must be
followed by `'.'` and a nonempty dot-free method name; the optional star is
tried greedily first and dropped on failure. -/
def ssaMethodTail (r : GoStr) : Option (Bool × GoStr × GoStr) :=
  let body : GoStr → Option (GoStr × GoStr) := fun t =>
    match indexOfChar ')' t with
    | some j =>
      if j > 0 then
        match strDrop (j + 1) t with
        | '.' :: d => if d ≠ [] ∧ ¬ containsChar '.' d then some (strTake j t, d) else none
        | _ => none
      else none
    | none => none
  match r with
  | '*' :: rest =>
    match body rest with
    | some (c, d) => some (true, c, d)
    | none => Option.map (fun cd => (false, cd.1, cd.2)) (body r)
  | _ => Option.map (fun cd => (false, cd.1, cd.2)) (body r)

/-- `ssaMethodPattern = ^(.+)\.\((\*?)([^)]+)\)\.([^.]+)$`: the greedy
`(.+)` selects the last `".("` whose remainder matches `ssaMethodTail`.
Returns `(package, isPointer, typeName, methodName)`. -/
def ssaMethodMatch (s : GoStr) : Option (GoStr × Bool × GoStr × GoStr) :=
  let cand := List.filter
    (fun i => decide (0 < i) ∧ startsWith (gs ".(") (strDrop i s) ∧
      Option.isSome (ssaMethodTail (strDrop (i + 2) s)))
    (List.range (GoStr.len s))
  match List.getLast? cand with
  | some i =>
    match ssaMethodTail (strDrop (i + 2) s) with
    | some (ptr, tn, mn) => some (strTake i s, ptr, tn, mn)
    | none => none
  | none => none

/-- `ssaAnonPattern = ^(.+)\.([^.]+)\$\d+$` as a boolean match: the suffix
after the last dot must be nonempty, dot-free, and contain a `'$'` at a
positive offset followed by one or more digits running to the end. -/
def ssaAnonMatchB (s : GoStr) : Bool :=
  match lastIndexOfChar '.' s with
  | some i =>
    0 < i ∧
    (let r := strDrop (i + 1) s
     List.any (List.range (GoStr.len r)) (fun j =>
       decide (0 < j) ∧ startsWith ['$'] (strDrop j r) ∧
       (let d := strDrop (j + 1) r
        decide (d ≠ []) ∧ List.all d isDigitChar)))
  | none => false

/-- `ssaFuncPattern = ^(.+)\.([^.]+)$`: split at the last dot, both sides
nonempty (the name side is automatically dot-free). -/
def ssaFuncMatch (s : GoStr) : Option (GoStr × GoStr) :=
  match lastIndexOfChar '.' s with
  | some i =>
    if 0 < i ∧ i + 1 < GoStr.len s then some (strTake i s, strDrop (i + 1) s) else none
  | none => none

/-- The final function-pattern step of `FromSSA` (`ssa.go` lines 344-357),
shared by the fall-through from the anonymous branch. -/
def ssaFuncStep (base loc : GoStr) : Except GoStr Symbol :=
  match ssaFuncMatch base with
  | some (pkg, name) =>
    .ok { packagePath := pkg, name := name,
          metadata := if loc ≠ [] then { position := loc } else {} }
  | none => .error (gs "invalid SSA format: " ++ base)

/-- `FromSSA` of `ssa.go`: strip the location suffix, then try the init,
method, anonymous and function patterns in that order. -/
def FromSSA (ssa : GoStr) : Except GoStr Symbol :=
  let pl := ssaStripLoc ssa
  let base := pl.1
  let loc := pl.2
  match ssaInitMatch base with
  | some pkg =>
    .ok { packagePath := pkg, name := gs "init", isInit := true,
          metadata := if loc ≠ [] then { position := loc } else {} }
  | none =>
  match ssaMethodMatch base with
  | some (pkg, ptr, tn, mn) =>
    .ok { packagePath := pkg, name := mn, receiver := some ⟨tn, ptr, []⟩,
          metadata := if loc ≠ [] then { position := loc } else {} }
  | none =>
  if ssaAnonMatchB base then
    match splitOnChar '$' base with
    | [p0, p1] =>
      match lastIndexOfChar '.' p0 with
      | some bp =>
        .ok { packagePath := strTake bp p0, name := strDrop (bp + 1) p0,
              isAnonymous := true, anonParent := p0,
              anonIndex := Option.getD (goAtoi p1) 0,
              metadata := if loc ≠ [] then { position := loc } else {} }
      | none => ssaFuncStep base loc
    | _ => ssaFuncStep base loc
  else ssaFuncStep base loc

/-- `ToSSA` of `ssa.go`. -/
def ToSSA (sym : Symbol) : GoStr :=
  (sym.packagePath ++ ['.']
   ++ (if sym.isInit then gs "init#1"
       else match sym.receiver with
       | some r =>
         ['('] ++ (if r.isPointer then ['*'] else []) ++ r.typeName ++ [')'] ++ ['.'] ++ sym.name
       | none =>
         if sym.isAnonymous then
           sym.name ++ ['$']
           ++ (if sym.anonIndex > 0 then natToStr sym.anonIndex.toNat else ['1'])
         else sym.name))
  ++ (if sym.metadata.position ≠ [] then ['@'] ++ sym.metadata.position else [])


/-!
The stack-trace adapter (`adapters/stacktrace.go`).
-/

/-- The `else if` arm of the location strip (lines 26-32): last space with a
path-shaped tail after it. -/
def stackStripLocSpace (trace : GoStr) : GoStr :=
  match lastIndexOfChar ' ' trace with
  | some idx =>
    if idx > 0 then
      let afterSpace := strDrop (idx + 1) trace
      if containsSub (gs ".go:") afterSpace ∨ containsChar '/' afterSpace then
        strTake idx trace
      else trace
    else trace
  | none => trace

/-- The location-stripping preamble of `FromStackTrace` (lines 21-32): cut
at the first `" /"` when it sits at a positive index, otherwise cut at the
last space when what follows it contains `".go:"` or a slash. -/
def stackStripLoc (trace : GoStr) : GoStr :=
  match indexOfSub (gs " /") trace with
  | some idx =>
    if idx > 0 then strTake idx trace else stackStripLocSpace trace
  | none => stackStripLocSpace trace

/-- `stackInitPattern = ^(.+)\.init\.func\d+$` as a boolean match. -/
def stackInitMatchB (s : GoStr) : Bool :=
  List.any (List.range (GoStr.len s)) (fun i =>
    decide (0 < i) ∧ startsWith (gs ".init.func") (strDrop i s) ∧
    (let d := strDrop (i + 10) s
     decide (d ≠ []) ∧ List.all d isDigitChar))

/-- `stackAnonPattern = ^(.+)\.func\d+` (no end anchor): group 1 is the
longest prefix followed by `".func"` and at least one digit. -/
def stackAnonMatch (s : GoStr) : Option GoStr :=
  let cand := List.filter
    (fun i => decide (0 < i) && startsWith (gs ".func") (strDrop i s) &&
      (match strDrop (i + 5) s with
       | c :: _ => isDigitChar c
       | [] => false))
    (List.range (GoStr.len s))
  Option.map (fun i => strTake i s) (List.getLast? cand)

/-- The init block of `FromStackTrace` (lines 34-46). -/
def stackInitStep (t : GoStr) : Option Symbol :=
  if stackInitMatchB t then
    let parts := splitOnChar '.' t
    if parts.length ≥ 2 then
      some { packagePath := joinWith ['.'] (List.take (parts.length - 2) parts),
             name := gs "init", isInit := true }
    else none
  else none

/-- The anonymous block of `FromStackTrace` (lines 48-63); the index is
never parsed, so `anonIndex` is always zero here. -/
def stackAnonStep (t : GoStr) : Option Symbol :=
  match stackAnonMatch t with
  | some base =>
    match lastIndexOfChar '.' base with
    | some idx =>
      if idx > 0 then
        some { packagePath := strTake idx base, name := strDrop (idx + 1) base,
               isAnonymous := true, anonParent := base }
      else none
    | none => none
  | none => none

/-- The closing-parenthesis scan of the method block (lines 73-92): bracket
content is skipped via the `inBrackets` flag, parentheses adjust the depth,
and the position where the depth returns to zero is reported. -/
def findCloseParen : GoStr → Int → Bool → Nat → Option Nat
  | [], _, _, _ => none
  | ch :: rest, depth, inBrackets, i =>
    if ch = '[' then findCloseParen rest depth true (i + 1)
    else if ch = ']' then findCloseParen rest depth false (i + 1)
    else if ch = '(' ∧ ¬ inBrackets then findCloseParen rest (depth + 1) inBrackets (i + 1)
    else if ch = ')' ∧ ¬ inBrackets then
      if depth - 1 = 0 then some i else findCloseParen rest (depth - 1) inBrackets (i + 1)
    else findCloseParen rest depth inBrackets (i + 1)

/-- `parseTypeParams` of `stacktrace.go`: comma split at zero bracket depth
with its own space handling; on a comma the trimmed piece is pushed even
when empty. -/
def parseTypeParams (s : GoStr) : List GoStr :=
  let st := List.foldl
    (fun (st : List GoStr × GoStr × Int) ch =>
      let (result, current, depth) := st
      if ch = '[' then (result, current ++ [ch], depth + 1)
      else if ch = ']' then (result, current ++ [ch], depth - 1)
      else if ch = ',' then
        if depth = 0 then (result ++ [trimSpace current], [], depth)
        else (result, current ++ [ch], depth)
      else if ch = ' ' then
        if depth > 0 ∨ current ≠ [] then (result, current ++ [ch], depth)
        else (result, current, depth)
      else (result, current ++ [ch], depth))
    ([], [], 0) s
  if st.2.1 ≠ [] then st.1 ++ [trimSpace st.2.1] else st.1

/-- The method block of `FromStackTrace` (lines 65-130). -/
def stackMethodStep (t : GoStr) : Option Symbol :=
  if containsSub (gs ".(*") t then
    match indexOfSub (gs ".(*") t with
    | some startParen =>
      if startParen > 0 then
        let pkg := strTake startParen t
        let remainder := strDrop (startParen + 3) t
        match findCloseParen remainder 1 false 0 with
        | some closeParen =>
          if closeParen > 0 then
            let receiverContent := strTake closeParen remainder
            let rcv : GoStr × List GoStr :=
              match indexOfChar '[' receiverContent with
              | some idx =>
                if idx > 0 then
                  (strTake idx receiverContent,
                   match lastIndexOfChar ']' receiverContent with
                   | some e =>
                     if e > idx then parseTypeParams (strSlice receiverContent (idx + 1) e)
                     else []
                   | none => [])
                else (receiverContent, [])
              | none => (receiverContent, [])
            let afterReceiver := strDrop (closeParen + 1) remainder
            match afterReceiver with
            | '.' :: method =>
              some { packagePath := pkg, name := method,
                     receiver := some ⟨rcv.1, true, rcv.2⟩ }
            | _ => none
          else none
        | none => none
      else none
    | none => none
  else none

/-- The generic-function block of `FromStackTrace` (lines 132-157). -/
def stackGenericStep (t : GoStr) : Option Symbol :=
  match indexOfChar '[' t with
  | some bracketStart =>
    if bracketStart > 0 then
      match lastIndexOfChar ']' t with
      | some bracketEnd =>
        if bracketEnd > bracketStart then
          let beforeBracket := strTake bracketStart t
          match lastIndexOfChar '.' beforeBracket with
          | some lastDot =>
            if lastDot > 0 then
              some { packagePath := strTake lastDot t,
                     name := strDrop (lastDot + 1) beforeBracket,
                     typeArgs := parseTypeParams (strSlice t (bracketStart + 1) bracketEnd) }
            else none
          | none => none
        else none
      | none => none
    else none
  | none => none

/-- The simple-function block of `FromStackTrace` (lines 159-174). -/
def stackSimpleStep (t : GoStr) : Option Symbol :=
  match lastIndexOfChar '.' t with
  | some lastDot =>
    if lastDot > 0 then
      let funcName := strDrop (lastDot + 1) t
      if funcName ≠ [] ∧ ¬ List.any funcName (fun c => containsChar c (gs "[]()* \t\n")) then
        some { packagePath := strTake lastDot t, name := funcName }
      else none
    else none
  | none => none

/-- `FromStackTrace` of `stacktrace.go`: strip the location, then run the
init, anonymous, method, generic and simple blocks in order, each falling
through to the next exactly where the Go control flow does. -/
def FromStackTrace (trace : GoStr) : Except GoStr Symbol :=
  let t := stackStripLoc trace
  match stackInitStep t with
  | some s => .ok s
  | none =>
  match stackAnonStep t with
  | some s => .ok s
  | none =>
  match stackMethodStep t with
  | some s => .ok s
  | none =>
  match stackGenericStep t with
  | some s => .ok s
  | none =>
  match stackSimpleStep t with
  | some s => .ok s
  | none => .error (gs "invalid stack trace format: " ++ t)

/-- `ToStackTrace` of `stacktrace.go`. -/
def ToStackTrace (sym : Symbol) : GoStr :=
  if sym.isAnonymous then
    if sym.anonParent ≠ [] then
      sym.anonParent ++ gs ".func"
      ++ (if sym.anonIndex > 0 then natToStr sym.anonIndex.toNat else ['1'])
    else []
  else
    sym.packagePath ++ ['.']
    ++ (if sym.isInit then gs "init.func1"
        else match sym.receiver with
        | some r =>
          gs "(*" ++ r.typeName
          ++ (if r.typeArgs.length > 0 then ['['] ++ joinWith (gs ", ") r.typeArgs ++ [']'] else [])
          ++ gs ")." ++ sym.name
        | none =>
          sym.name
          ++ (if sym.typeArgs.length > 0 then ['['] ++ joinWith (gs ", ") sym.typeArgs ++ [']'] else []))


/-!
Claims.  Each claim of the specification is settled by one theorem below;
counterexample theorems accompany the claims the code refutes.
-/

/-- Claim C3: the five error literals.  `Parse("")`, `Parse("invalidformat")`,
`Parse("pkg.(*Type")`, `Parse("pkg.Function@")` and `Parse("pkg.Function[T")`
each return an error (empty input, missing package separator, incomplete
receiver, empty context, unclosed type bracket respectively).  The model's
`Except` result mirrors Go's `(nil, err)` returns: an error constructor
carries no `Symbol` at all, so no partial or degraded value accompanies an
error. -/
theorem c3_error_literals :
    Parse (gs "") = .error (gs "invalid GSRF symbol: empty string") ∧
    Parse (gs "invalidformat") = .error (gs "invalid GSRF symbol: no package separator found") ∧
    Parse (gs "pkg.(*Type") = .error (gs "incomplete method receiver") ∧
    Parse (gs "pkg.Function@") = .error (gs "invalid GSRF symbol: empty context after @") ∧
    Parse (gs "pkg.Function[T") = .error (gs "invalid GSRF symbol: unclosed type parameter bracket") :=
  ⟨rfl, rfl, rfl, rfl, rfl⟩

/-- Claim C7: nested commas never split the outer type-argument list.
`Parse("pkg.Transform[Map[K, V], List[T]]")` yields package path `pkg`,
name `Transform`, and exactly the two whitespace-trimmed type arguments
`Map[K, V]` and `List[T]`. -/
theorem c7_nested_bracket_split :
    Parse (gs "pkg.Transform[Map[K, V], List[T]]") =
      .ok { packagePath := gs "pkg", name := gs "Transform",
            typeArgs := [gs "Map[K, V]", gs "List[T]"] } :=
  rfl

/-- Claim C5, counterexample: the parser does not reject a negative
anonymous-function index.  `Parse("pkg.F·lit-3")` succeeds (no error) and
stores `anon_index = -3 < 0`, refuting both halves of the claim. -/
theorem c5_counterexample :
    Parse (gs "pkg.F·lit-3") =
      .ok { packagePath := gs "pkg", name := gs "F", isAnonymous := true,
            anonParent := gs "pkg.F", anonIndex := -3 } ∧
    (-3 : Int) < 0 :=
  ⟨rfl, by decide⟩

/-- Claim C5 as amended: the text after the `lit` token is handed to
`strconv.Atoi` and any integer it returns — negative ones included — is
stored in `anon_index`; a non-integer suffix leaves the index at zero, and
no input is rejected for carrying a negative index. -/
theorem c5_amended :
    Parse (gs "pkg.F·lit-3") =
      .ok { packagePath := gs "pkg", name := gs "F", isAnonymous := true,
            anonParent := gs "pkg.F", anonIndex := -3 } ∧
    Parse (gs "pkg.F·lit7") =
      .ok { packagePath := gs "pkg", name := gs "F", isAnonymous := true,
            anonParent := gs "pkg.F", anonIndex := 7 } ∧
    Parse (gs "pkg.F·litx") =
      .ok { packagePath := gs "pkg", name := gs "F", isAnonymous := true,
            anonParent := gs "pkg.F", anonIndex := 0 } :=
  ⟨rfl, rfl, rfl⟩

/-- Claim C4, counterexample: on
`myapp.(*App).Start\x7bvia:Component\x7bvia:Lifecycle\x7d\x7d` the parser does NOT
locate the brace matching the final closing brace: the returned symbol's
`via` is not the nested value `Component\x7bvia:Lifecycle\x7d` and its name is not
`Start`, refuting the claim. -/
theorem c4_counterexample :
    Parse (gs "myapp.(*App).Start\x7bvia:Component\x7bvia:Lifecycle\x7d\x7d") =
      .ok { packagePath := gs "myapp", name := gs "Start\x7bvia:Component",
            receiver := some ⟨gs "App", true, []⟩,
            metadata := { via := gs "Lifecycle\x7d" } } ∧
    gs "Lifecycle\x7d" ≠ gs "Component\x7bvia:Lifecycle\x7d" ∧
    gs "Start\x7bvia:Component" ≠ gs "Start" :=
  ⟨rfl, by decide, by decide⟩

/-- Claim C4 as amended: `Parse` strips the metadata block from the LAST
opening brace in the string (`strings.LastIndex`), not from the brace
matching the final closing brace.  On the nested input the stripped block is
the inner one, so the method name keeps the text `Start\x7bvia:Component` and
`metadata.via` becomes `Lifecycle\x7d`. -/
theorem c4_amended :
    Parse (gs "myapp.(*App).Start\x7bvia:Component\x7bvia:Lifecycle\x7d\x7d") =
      .ok { packagePath := gs "myapp", name := gs "Start\x7bvia:Component",
            receiver := some ⟨gs "App", true, []⟩,
            metadata := { via := gs "Lifecycle\x7d" } } :=
  rfl


/-- Claim C1: format-then-parse is NOT the identity on parser-producible
symbols.  `Format` writes the anonymous separator as the source file's
literal bytes `Â·lit` (U+00C2 U+00B7, a mojibake of the intended U+00B7)
while `Parse` searches for `·lit` (U+00B7), and the repository's own format
test expects `main.main·lit`.  Parsing `main.main·lit` therefore yields an
anonymous symbol whose re-parse after formatting has name `mainÂ` instead
of `main`. -/
theorem c1_roundtrip_fails_on_anonymous :
    Parse (gs "main.main·lit") =
      .ok { packagePath := gs "main", name := gs "main", isAnonymous := true,
            anonParent := gs "main.main" } ∧
    Format { packagePath := gs "main", name := gs "main", isAnonymous := true,
             anonParent := gs "main.main" } = gs "main.mainÂ·lit" ∧
    Parse (gs "main.mainÂ·lit") =
      .ok { packagePath := gs "main", name := gs "mainÂ", isAnonymous := true,
            anonParent := gs "main.mainÂ" } ∧
    Symbol.mk (gs "main") (gs "mainÂ") none false true (gs "main.mainÂ") 0 [] [] [] {} ≠
      Symbol.mk (gs "main") (gs "main") none false true (gs "main.main") 0 [] [] [] {} :=
  ⟨rfl, rfl, rfl, by decide⟩

/-- Claim C2: self round-trip fails for the SSA adapter on a reachable
symbol.  `FromSSA("main.main$0")` yields an anonymous symbol with
`anon_index = 0`; `ToSSA` renders it as `main.main$1`, which parses back
with `anon_index = 1`, so `FromSSA(ToSSA(s)) ≠ s`.  The claim's concrete
instance `ToSSA(FromSSA("pkg.init#1")) = "pkg.init#1"` does hold and is
included. -/
theorem c2_ssa_roundtrip_fails_on_index_zero :
    FromSSA (gs "main.main$0") =
      .ok { packagePath := gs "main", name := gs "main", isAnonymous := true,
            anonParent := gs "main.main", anonIndex := 0 } ∧
    ToSSA { packagePath := gs "main", name := gs "main", isAnonymous := true,
            anonParent := gs "main.main", anonIndex := 0 } = gs "main.main$1" ∧
    FromSSA (gs "main.main$1") =
      .ok { packagePath := gs "main", name := gs "main", isAnonymous := true,
            anonParent := gs "main.main", anonIndex := 1 } ∧
    Symbol.mk (gs "main") (gs "main") none false true (gs "main.main") 1 [] [] [] {} ≠
      Symbol.mk (gs "main") (gs "main") none false true (gs "main.main") 0 [] [] [] {} ∧
    FromSSA (gs "pkg.init#1") =
      .ok { packagePath := gs "pkg", name := gs "init", isInit := true } ∧
    ToSSA { packagePath := gs "pkg", name := gs "init", isInit := true } = gs "pkg.init#1" :=
  ⟨rfl, rfl, rfl, by decide, rfl, rfl⟩

/-- Claim C6: formatting is NOT deterministic over custom metadata.  The Go
formatter iterates the custom map with `range`, whose order is unspecified;
two admissible iteration orders of the same two-entry content produce
different bytes.  `FormatWith` makes the order explicit: both lists below
are permutations of the same content, yet the outputs differ. -/
theorem c6_custom_order_nondeterminism :
    List.Perm [(gs "a", gs "1"), (gs "b", gs "2")] [(gs "b", gs "2"), (gs "a", gs "1")] ∧
    FormatWith { packagePath := gs "pkg", name := gs "F",
                 metadata := { custom := [(gs "a", gs "1"), (gs "b", gs "2")] } }
        [(gs "a", gs "1"), (gs "b", gs "2")] = gs "pkg.F\x7ba:1,b:2\x7d" ∧
    FormatWith { packagePath := gs "pkg", name := gs "F",
                 metadata := { custom := [(gs "a", gs "1"), (gs "b", gs "2")] } }
        [(gs "b", gs "2"), (gs "a", gs "1")] = gs "pkg.F\x7bb:2,a:1\x7d" ∧
    gs "pkg.F\x7ba:1,b:2\x7d" ≠ gs "pkg.F\x7bb:2,a:1\x7d" :=
  ⟨List.Perm.swap _ _ _, rfl, rfl, by decide⟩

/-- Claim C10, counterexample: a Symbol that is anonymous with
`anon_index = 0` but also carries a receiver is rendered by `ToSSA` through
the receiver branch (which precedes the anonymous branch), so the output
carries no `$1` suffix, refuting the universally quantified claim. -/
theorem c10_counterexample :
    ToSSA { packagePath := gs "p", name := gs "f", isAnonymous := true, anonIndex := 0,
            anonParent := gs "p.f", receiver := some ⟨gs "T", true, []⟩ } = gs "p.(*T).f" ∧
    endsWith (gs "$1") (gs "p.(*T).f") = false :=
  ⟨rfl, by decide⟩


/-- A string containing neither brace character. -/
def braceFreeStr (l : GoStr) : Prop := '{' ∉ l ∧ '}' ∉ l

/-- Characters of a `joinWith` come from the separator or from an element. -/
theorem mem_joinWith {c : Char} (sep : GoStr) (l : List GoStr)
    (h : c ∈ joinWith sep l) : c ∈ sep ∨ ∃ x ∈ l, c ∈ x := by
  induction l with
  | nil => simp [joinWith] at h
  | cons x xs ih =>
    cases xs with
    | nil =>
      simp only [joinWith] at h
      exact Or.inr ⟨x, by simp, h⟩
    | cons y t =>
      simp only [joinWith, List.mem_append] at h
      rcases h with (h | h) | h
      · exact Or.inr ⟨x, by simp, h⟩
      · exact Or.inl h
      · rcases ih h with h | ⟨z, hz, hcz⟩
        · exact Or.inl h
        · exact Or.inr ⟨z, List.mem_cons_of_mem _ hz, hcz⟩

/-- Every character produced by `natDigitsAux` on a digit-only accumulator
is a decimal digit. -/
theorem natDigitsAux_digits (fuel : Nat) :
    ∀ (n : Nat) (acc : GoStr), (∀ c ∈ acc, isDigitChar c) →
      ∀ c ∈ natDigitsAux fuel n acc, isDigitChar c := by
  have hd : ∀ r < 10, isDigitChar (Char.ofNat ('0'.toNat + r)) := by decide
  induction fuel with
  | zero => intro n acc hacc c hc; exact hacc c hc
  | succ fuel ih =>
    intro n acc hacc c hc
    have hdig : isDigitChar (Char.ofNat ('0'.toNat + n % 10)) :=
      hd (n % 10) (Nat.mod_lt _ (by decide))
    simp only [natDigitsAux] at hc
    by_cases hn : n < 10
    · simp only [hn, if_pos] at hc
      rcases List.mem_cons.mp hc with hc | hc
      · rw [hc]; exact hdig
      · exact hacc c hc
    · simp only [hn, if_neg, not_false_iff] at hc
      refine ih (n / 10) _ ?_ c hc
      intro d hdm
      rcases List.mem_cons.mp hdm with hdm | hdm
      · rw [hdm]; exact hdig
      · exact hacc d hdm

/-- Every character of `natToStr n` is a decimal digit. -/
theorem natToStr_digits (n : Nat) : ∀ c ∈ natToStr n, isDigitChar c :=
  natDigitsAux_digits (n + 1) n [] (by intro c hc; cases hc)

/-- Claim C8, counterexample: the claim quantifies over every Symbol with
all-empty metadata, but `Format` copies field text verbatim, so a Symbol
whose name itself contains a brace formats to a string containing a brace
even though no metadata block is emitted. -/
theorem c8_counterexample :
    (({ packagePath := gs "p", name := gs "f\x7b" } : Symbol)).metadata = emptyMetadata ∧
    Format { packagePath := gs "p", name := gs "f\x7b" } = gs "p.f\x7b" ∧
    '{' ∈ gs "p.f\x7b" :=
  ⟨rfl, rfl, by decide⟩


/-- Claim C8 as amended: for every Symbol whose metadata is entirely empty
AND whose rendered string fields (package path, name, receiver type name
and receiver type arguments, type arguments, type-parameter names and
constraints, context) contain no brace characters, `Format` emits no brace
at all: the metadata block is omitted entirely, never rendered as an empty
pair of braces. -/
theorem c8_no_braces_without_metadata :
    ∀ s : Symbol,
      s.metadata = emptyMetadata →
      braceFreeStr s.packagePath → braceFreeStr s.name →
      (∀ r, s.receiver = some r → braceFreeStr r.typeName ∧ ∀ a ∈ r.typeArgs, braceFreeStr a) →
      (∀ a ∈ s.typeArgs, braceFreeStr a) →
      (∀ tp ∈ s.typeParams, braceFreeStr tp.name ∧ braceFreeStr tp.constraint) →
      braceFreeStr s.context →
      '{' ∉ Format s ∧ '}' ∉ Format s := by
  intro s hmeta hpkg hname hrecv hargs hparams hctx
  have key : ∀ c, c = '{' ∨ c = '}' → c ∉ Format s := by
    intro c hc hmem
    have hbrace : ∀ l : GoStr, braceFreeStr l → c ∉ l := by
      intro l hl
      rcases hc with h | h <;> rw [h]
      · exact hl.1
      · exact hl.2
    have hnotdot : ∀ l : List Char, (∀ x ∈ l, isDigitChar x ∨ x ∈ gs ".(*)[]@, Â·lit") → c ∉ l := by
      intro l hl hcl
      rcases hl c hcl with h | h
      · rcases hc with h2 | h2 <;> rw [h2] at h <;> simp [isDigitChar] at h
      · rcases hc with h2 | h2 <;> rw [h2] at h <;> revert h <;> decide
    unfold Format FormatWith at hmem
    rw [hmeta] at hmem
    have hmetablock :
        (if hasMetadata emptyMetadata emptyMetadata.custom then
          let parts := metaParts emptyMetadata emptyMetadata.custom
          if parts.length > 0 then ['{'] ++ joinWith [','] parts ++ ['}'] else []
        else []) = ([] : GoStr) := by decide
    rw [hmetablock, List.append_nil] at hmem
    simp only [List.mem_append] at hmem
    rcases hmem with ((((hm | hm) | hm) | hm) | hm) | hm
    · exact hbrace _ hpkg hm
    · exact hnotdot ['.'] (by decide) hm
    · -- receiver part
      cases hr : s.receiver with
      | none => rw [hr] at hm; cases hm
      | some r =>
        rw [hr] at hm
        rcases hrecv r hr with ⟨hrt, hra⟩
        simp only [List.mem_append] at hm
        rcases hm with (((hm | hm) | hm) | hm) | hm
        · exact hnotdot ['('] (by decide) hm
        · split at hm
          · exact hnotdot ['*'] (by decide) hm
          · cases hm
        · exact hbrace _ hrt hm
        · split at hm
          · simp only [List.mem_append] at hm
            rcases hm with (hm | hm) | hm
            · exact hnotdot ['['] (by decide) hm
            · rcases mem_joinWith _ _ hm with hm | ⟨x, hx, hcx⟩
              · exact hnotdot (gs ", ") (by decide) hm
              · exact hbrace _ (hra x hx) hcx
            · exact hnotdot [']'] (by decide) hm
          · cases hm
        · exact hnotdot (gs ").") (by decide) hm
    · -- name part
      split at hm
      · simp only [List.mem_append] at hm
        rcases hm with (hm | hm) | hm
        · exact hbrace _ hname hm
        · exact hnotdot (gs "Â·lit") (by decide) hm
        · split at hm
          · exact hnotdot _ (by intro x hx; exact Or.inl (natToStr_digits _ x hx)) hm
          · cases hm
      · exact hbrace _ hname hm
    · -- type arguments and parameters
      split at hm
      · simp only [List.mem_append] at hm
        rcases hm with (hm | hm) | hm
        · exact hnotdot ['['] (by decide) hm
        · rcases mem_joinWith _ _ hm with hm | ⟨x, hx, hcx⟩
          · exact hnotdot (gs ", ") (by decide) hm
          · exact hbrace _ (hargs x hx) hcx
        · exact hnotdot [']'] (by decide) hm
      · split at hm
        · simp only [List.mem_append] at hm
          rcases hm with (hm | hm) | hm
          · exact hnotdot ['['] (by decide) hm
          · rcases mem_joinWith _ _ hm with hm | ⟨x, hx, hcx⟩
            · exact hnotdot (gs ", ") (by decide) hm
            · rcases List.mem_map.mp hx with ⟨tp, htp, hxeq⟩
              rcases hparams tp htp with ⟨hn, hcst⟩
              rw [← hxeq] at hcx
              simp only [List.mem_append] at hcx
              rcases hcx with hcx | hcx
              · exact hbrace _ hn hcx
              · split at hcx
                · simp only [List.mem_append] at hcx
                  rcases hcx with hcx | hcx
                  · exact hnotdot [' '] (by decide) hcx
                  · exact hbrace _ hcst hcx
                · cases hcx
          · exact hnotdot [']'] (by decide) hm
        · cases hm
    · -- context part
      split at hm
      · simp only [List.mem_append] at hm
        rcases hm with hm | hm
        · exact hnotdot ['@'] (by decide) hm
        · exact hbrace _ hctx hm
      · cases hm
  exact ⟨key '{' (Or.inl rfl), key '}' (Or.inr rfl)⟩

/-- Witness for the amended C8 at a concrete Symbol. -/
theorem c8_no_braces_without_metadata_witness :
    '{' ∉ Format { packagePath := gs "pkg", name := gs "Func" } ∧
    '}' ∉ Format { packagePath := gs "pkg", name := gs "Func" } :=
  c8_no_braces_without_metadata
    { packagePath := gs "pkg", name := gs "Func" }
    rfl ⟨by decide, by decide⟩ ⟨by decide, by decide⟩
    (by intro r h; cases h)
    (by intro a ha; cases ha)
    (by intro tp htp; cases htp)
    ⟨by decide, by decide⟩


/-- Every success of the init block leaves context and metadata empty. -/
theorem stackInitStep_fields : ∀ t s, stackInitStep t = some s →
    s.context = [] ∧ s.metadata = emptyMetadata := by
  intro t s h
  unfold stackInitStep at h
  repeat
    first
    | (exact ⟨rfl, rfl⟩)
    | (exact Except.noConfusion h)
    | (cases h)
    | (injection h with h; rw [← h]; exact ⟨rfl, rfl⟩)
    | (split at h)
    | (dsimp only at h)

/-- Every success of the anonymous block leaves context and metadata empty. -/
theorem stackAnonStep_fields : ∀ t s, stackAnonStep t = some s →
    s.context = [] ∧ s.metadata = emptyMetadata := by
  intro t s h
  unfold stackAnonStep at h
  repeat
    first
    | (exact ⟨rfl, rfl⟩)
    | (exact Except.noConfusion h)
    | (cases h)
    | (injection h with h; rw [← h]; exact ⟨rfl, rfl⟩)
    | (split at h)
    | (dsimp only at h)

/-- Every success of the method block leaves context and metadata empty. -/
theorem stackMethodStep_fields : ∀ t s, stackMethodStep t = some s →
    s.context = [] ∧ s.metadata = emptyMetadata := by
  intro t s h
  unfold stackMethodStep at h
  repeat
    first
    | (exact ⟨rfl, rfl⟩)
    | (exact Except.noConfusion h)
    | (cases h)
    | (injection h with h; rw [← h]; exact ⟨rfl, rfl⟩)
    | (split at h)
    | (dsimp only at h)

/-- Every success of the generic block leaves context and metadata empty. -/
theorem stackGenericStep_fields : ∀ t s, stackGenericStep t = some s →
    s.context = [] ∧ s.metadata = emptyMetadata := by
  intro t s h
  unfold stackGenericStep at h
  repeat
    first
    | (exact ⟨rfl, rfl⟩)
    | (exact Except.noConfusion h)
    | (cases h)
    | (injection h with h; rw [← h]; exact ⟨rfl, rfl⟩)
    | (split at h)
    | (dsimp only at h)

/-- Every success of the simple block leaves context and metadata empty. -/
theorem stackSimpleStep_fields : ∀ t s, stackSimpleStep t = some s →
    s.context = [] ∧ s.metadata = emptyMetadata := by
  intro t s h
  unfold stackSimpleStep at h
  repeat
    first
    | (exact ⟨rfl, rfl⟩)
    | (exact Except.noConfusion h)
    | (cases h)
    | (injection h with h; rw [← h]; exact ⟨rfl, rfl⟩)
    | (split at h)
    | (dsimp only at h)

/-- Every success of the shared function step of `FromSSA` has no receiver,
no context, and only the stripped location in its metadata. -/
theorem ssaFuncStep_fields : ∀ b l r, ssaFuncStep b l = .ok r →
    r.context = [] ∧ r.metadata.via = [] ∧ r.metadata.aliasSrc = [] ∧
    r.metadata.custom = [] ∧ r.metadata.position = l ∧ r.receiver = none := by
  intro b l r h
  unfold ssaFuncStep at h
  split at h
  · injection h with h
    rw [← h]
    by_cases hl : l = [] <;> simp [hl]
  · exact Except.noConfusion h

/-- Claim C9: for both adapters, a trailing source-location fragment can
populate only `metadata.position`.  `FromStackTrace` never populates
context or metadata at all (the stripped location is discarded), and
`FromSSA` puts exactly the stripped location into `metadata.position`,
leaves context and the other metadata fields empty, and builds any receiver
purely from the location-free base via the method matcher. -/
theorem c9_location_only_position :
    ∀ (t u : GoStr) (s r : Symbol),
      FromStackTrace t = .ok s → FromSSA u = .ok r →
      s.context = [] ∧ s.metadata = emptyMetadata ∧
      r.context = [] ∧ r.metadata.via = [] ∧ r.metadata.aliasSrc = [] ∧
      r.metadata.custom = [] ∧ r.metadata.position = (ssaStripLoc u).2 ∧
      (r.receiver = none ∨
        ∃ m, ssaMethodMatch (ssaStripLoc u).1 = some m ∧
          r.receiver = some ⟨m.2.2.1, m.2.1, []⟩) := by
  intro t u s r hst hssa
  have hstack : s.context = [] ∧ s.metadata = emptyMetadata := by
    unfold FromStackTrace at hst
    dsimp only at hst
    cases h1 : stackInitStep (stackStripLoc t) with
    | some s1 =>
      rw [h1] at hst; injection hst with hst; rw [← hst]
      exact stackInitStep_fields _ _ h1
    | none =>
    rw [h1] at hst
    cases h2 : stackAnonStep (stackStripLoc t) with
    | some s2 =>
      rw [h2] at hst; injection hst with hst; rw [← hst]
      exact stackAnonStep_fields _ _ h2
    | none =>
    rw [h2] at hst
    cases h3 : stackMethodStep (stackStripLoc t) with
    | some s3 =>
      rw [h3] at hst; injection hst with hst; rw [← hst]
      exact stackMethodStep_fields _ _ h3
    | none =>
    rw [h3] at hst
    cases h4 : stackGenericStep (stackStripLoc t) with
    | some s4 =>
      rw [h4] at hst; injection hst with hst; rw [← hst]
      exact stackGenericStep_fields _ _ h4
    | none =>
    rw [h4] at hst
    cases h5 : stackSimpleStep (stackStripLoc t) with
    | some s5 =>
      rw [h5] at hst; injection hst with hst; rw [← hst]
      exact stackSimpleStep_fields _ _ h5
    | none =>
    rw [h5] at hst; exact Except.noConfusion hst
  refine ⟨hstack.1, hstack.2, ?_⟩
  unfold FromSSA at hssa
  dsimp only at hssa
  cases hinit : ssaInitMatch (ssaStripLoc u).1 with
  | some pkg =>
    rw [hinit] at hssa; injection hssa with hssa; rw [← hssa]
    by_cases hl : (ssaStripLoc u).2 = [] <;>
      simp [hl]
  | none =>
  rw [hinit] at hssa
  cases hmeth : ssaMethodMatch (ssaStripLoc u).1 with
  | some m =>
    obtain ⟨pkg, ptr, tn, mn⟩ := m
    rw [hmeth] at hssa; injection hssa with hssa; rw [← hssa]
    refine ⟨rfl, ?_, ?_, ?_, ?_, ?_⟩
    · by_cases hl : (ssaStripLoc u).2 = [] <;> simp [hl]
    · by_cases hl : (ssaStripLoc u).2 = [] <;> simp [hl]
    · by_cases hl : (ssaStripLoc u).2 = [] <;> simp [hl]
    · by_cases hl : (ssaStripLoc u).2 = [] <;> simp [hl]
    · exact Or.inr ⟨(pkg, ptr, tn, mn), rfl, rfl⟩
  | none =>
  rw [hmeth] at hssa
  by_cases hanon : ssaAnonMatchB (ssaStripLoc u).1
  · rw [if_pos hanon] at hssa
    have hfunc := ssaFuncStep_fields (ssaStripLoc u).1 (ssaStripLoc u).2 r
    cases hsp : splitOnChar '$' (ssaStripLoc u).1 with
    | nil => rw [hsp] at hssa; dsimp only at hssa; exact ⟨(hfunc hssa).1, (hfunc hssa).2.1, (hfunc hssa).2.2.1,
        (hfunc hssa).2.2.2.1, (hfunc hssa).2.2.2.2.1, Or.inl (hfunc hssa).2.2.2.2.2⟩
    | cons p0 rest =>
      cases rest with
      | nil => rw [hsp] at hssa; dsimp only at hssa; exact ⟨(hfunc hssa).1, (hfunc hssa).2.1, (hfunc hssa).2.2.1,
          (hfunc hssa).2.2.2.1, (hfunc hssa).2.2.2.2.1, Or.inl (hfunc hssa).2.2.2.2.2⟩
      | cons p1 rest2 =>
        cases rest2 with
        | nil =>
          rw [hsp] at hssa
          dsimp only at hssa
          cases hbp : lastIndexOfChar '.' p0 with
          | some bp =>
            rw [hbp] at hssa; injection hssa with hssa; rw [← hssa]
            refine ⟨rfl, ?_, ?_, ?_, ?_, Or.inl rfl⟩ <;>
              by_cases hl : (ssaStripLoc u).2 = [] <;> simp [hl]
          | none =>
            rw [hbp] at hssa
            dsimp only at hssa
            exact ⟨(hfunc hssa).1, (hfunc hssa).2.1, (hfunc hssa).2.2.1,
              (hfunc hssa).2.2.2.1, (hfunc hssa).2.2.2.2.1, Or.inl (hfunc hssa).2.2.2.2.2⟩
        | cons p2 rest3 =>
          rw [hsp] at hssa
          dsimp only at hssa
          exact ⟨(hfunc hssa).1, (hfunc hssa).2.1, (hfunc hssa).2.2.1,
            (hfunc hssa).2.2.2.1, (hfunc hssa).2.2.2.2.1, Or.inl (hfunc hssa).2.2.2.2.2⟩
  · rw [if_neg hanon] at hssa
    have hfunc := ssaFuncStep_fields (ssaStripLoc u).1 (ssaStripLoc u).2 r hssa
    exact ⟨hfunc.1, hfunc.2.1, hfunc.2.2.1, hfunc.2.2.2.1, hfunc.2.2.2.2.1,
      Or.inl hfunc.2.2.2.2.2⟩

/-- Witness for C9 at concrete adapter inputs: a stack trace carrying a
file path and an SSA string carrying a trailing location. -/
theorem c9_location_only_position_witness :
    (Symbol.mk (gs "main") (gs "main") none false false [] 0 [] [] [] {}).context = [] ∧
    (Symbol.mk (gs "main") (gs "main") none false false [] 0 [] [] [] {}).metadata = emptyMetadata ∧
    (Symbol.mk (gs "pkg") (gs "Function") none false false [] 0 [] [] []
      (Metadata.mk [] [] (gs "file.go:12:1") [])).context = [] ∧
    (Symbol.mk (gs "pkg") (gs "Function") none false false [] 0 [] [] []
      (Metadata.mk [] [] (gs "file.go:12:1") [])).metadata.via = [] ∧
    (Symbol.mk (gs "pkg") (gs "Function") none false false [] 0 [] [] []
      (Metadata.mk [] [] (gs "file.go:12:1") [])).metadata.aliasSrc = [] ∧
    (Symbol.mk (gs "pkg") (gs "Function") none false false [] 0 [] [] []
      (Metadata.mk [] [] (gs "file.go:12:1") [])).metadata.custom = [] ∧
    (Symbol.mk (gs "pkg") (gs "Function") none false false [] 0 [] [] []
      (Metadata.mk [] [] (gs "file.go:12:1") [])).metadata.position =
      (ssaStripLoc (gs "pkg.Function@file.go:12:1")).2 ∧
    ((Symbol.mk (gs "pkg") (gs "Function") none false false [] 0 [] [] []
      (Metadata.mk [] [] (gs "file.go:12:1") [])).receiver = none ∨
      ∃ m, ssaMethodMatch (ssaStripLoc (gs "pkg.Function@file.go:12:1")).1 = some m ∧
        (Symbol.mk (gs "pkg") (gs "Function") none false false [] 0 [] [] []
          (Metadata.mk [] [] (gs "file.go:12:1") [])).receiver = some ⟨m.2.2.1, m.2.1, []⟩) :=
  c9_location_only_position
    (gs "main.main /path/to/file.go:123") (gs "pkg.Function@file.go:12:1")
    (Symbol.mk (gs "main") (gs "main") none false false [] 0 [] [] [] {})
    (Symbol.mk (gs "pkg") (gs "Function") none false false [] 0 [] [] []
      (Metadata.mk [] [] (gs "file.go:12:1") []))
    rfl rfl


/-- Claim C10 as amended: for an anonymous Symbol with `anon_index = 0` that
carries no receiver, is not init, and has empty position metadata, `ToSSA`
renders an explicit `$1`; `ToStackTrace` (given a nonempty `anon_parent`)
renders an explicit `.func1`; a non-anonymous init Symbol renders as
`<package>.init.func1`; and the canonical formatter (for such a Symbol with
no type arguments, type parameters, context, or metadata) omits the numeral
after its `lit` marker.  The original unrestricted claim fails when a
receiver is present (see the counterexample), when `anon_parent` is empty
(`ToStackTrace` returns the empty string), or when the init Symbol is also
anonymous (the anonymous branch runs first). -/
theorem c10_amended :
    ∀ (s t : Symbol),
      s.isAnonymous = true → s.anonIndex = 0 → s.receiver = none → s.isInit = false →
      s.anonParent ≠ [] → s.typeArgs = [] → s.typeParams = [] → s.context = [] →
      s.metadata = emptyMetadata →
      t.isInit = true → t.isAnonymous = false →
      ToSSA s = s.packagePath ++ ['.'] ++ s.name ++ gs "$1" ∧
      ToStackTrace s = s.anonParent ++ gs ".func1" ∧
      ToStackTrace t = t.packagePath ++ gs ".init.func1" ∧
      Format s = s.packagePath ++ ['.'] ++ s.name ++ gs "Â·lit" := by
  intro s t h1 h2 h3 h4 h5 h6 h7 h8 h9 h10 h11
  refine ⟨?_, ?_, ?_, ?_⟩
  · unfold ToSSA
    rw [h1, h2, h3, h4, h9]
    simp [gs, emptyMetadata]
  · unfold ToStackTrace
    rw [h1, h2, if_pos h5]
    simp [gs]
  · unfold ToStackTrace
    rw [h10, h11]
    simp [gs]
  · unfold Format FormatWith
    rw [h1, h2, h3, h6, h7, h8, h9]
    simp [gs, emptyMetadata, hasMetadata]

/-- Witness for the amended C10 at concrete Symbols. -/
theorem c10_amended_witness :
    ToSSA (Symbol.mk (gs "main") (gs "main") none false true (gs "main.main") 0 [] [] [] {}) =
      gs "main" ++ ['.'] ++ gs "main" ++ gs "$1" ∧
    ToStackTrace (Symbol.mk (gs "main") (gs "main") none false true (gs "main.main") 0 [] [] [] {}) =
      gs "main.main" ++ gs ".func1" ∧
    ToStackTrace (Symbol.mk (gs "pkg") (gs "init") none true false [] 0 [] [] [] {}) =
      gs "pkg" ++ gs ".init.func1" ∧
    Format (Symbol.mk (gs "main") (gs "main") none false true (gs "main.main") 0 [] [] [] {}) =
      gs "main" ++ ['.'] ++ gs "main" ++ gs "Â·lit" :=
  c10_amended
    (Symbol.mk (gs "main") (gs "main") none false true (gs "main.main") 0 [] [] [] {})
    (Symbol.mk (gs "pkg") (gs "init") none true false [] 0 [] [] [] {})
    rfl rfl rfl rfl (by decide) rfl rfl rfl rfl rfl rfl

end Gsrf
